import Mathlib

/-
Verification of the two-pass greenwashing claim/finding pipeline
(`src/analyzer.py`, class `GreenwashingAnalyzer`).

The embedding below translates the orchestration core:
  * `analyze_report`   (Pass 1, lines 44-151) — sequential page analysis,
    claim registry growth, claim-update application, per-page failure
    recovery;
  * `deep_verify_claims` (Pass 2, lines 153-210) — keyword pre-filter plus
    strict LLM adjudication of still-open claims.

The LLM calls (`_analyze_single_chunk`, `_verify_claim_with_llm`) are
external network oracles; they are modelled as arbitrary per-call response
functions (`P1Oracle`, `P2Oracle`), with `none` standing for the exception
path that the source catches and turns into `None`.  Parsed JSON values
are modelled by the inductive `Json`; machine integers are `Nat`
(page numbers and claim counters are small positive ints, no overflow is
reachable).  Progress callbacks and `print` calls are pure side effects
with no influence on the returned data and are omitted.  Both runs are
instrumented with an explicit trace of the oracle interactions
(`P1Call`, `P2Event`) so that statements such as "no oracle call is made"
or "the call receives exactly this context" are expressible.
-/

namespace GW

/-- A parsed JSON value, as produced by `json.loads` on the oracle's
response text.  JSON numbers are modelled as integers (pages, ids and
the values the claims exercise are integral). -/
inductive Json where
  | null : Json
  | bool (b : Bool) : Json
  | num (n : Int) : Json
  | str (s : String) : Json
  | arr (elems : List Json) : Json
  | obj (fields : List (String × Json)) : Json

/-- Python `repr` of a parsed-JSON value (used by `str` on containers).
String quoting is simplified to single quotes throughout; no claim
depends on the rendering of containers. -/
def pyRepr : Json → String
  | .null => "None"
  | .bool true => "True"
  | .bool false => "False"
  | .num n => toString n
  | .str s => "\x27" ++ s ++ "\x27"
  | .arr xs => "[" ++ String.intercalate ", "
      (xs.attach.map (fun x => pyRepr x.1)) ++ "]"
  | .obj kvs => "\x7b" ++ String.intercalate ", "
      (kvs.attach.map (fun kv => "\x27" ++ kv.1.1 ++ "\x27: " ++ pyRepr kv.1.2)) ++ "\x7d"
decreasing_by
  all_goals simp_wf
  · have := List.sizeOf_lt_of_mem x.2
    omega
  · have h1 := List.sizeOf_lt_of_mem kv.2
    obtain ⟨⟨a, b⟩, hm⟩ := kv
    simp at h1 ⊢
    omega

/-- Python `str()` of a parsed-JSON value (line 112: `claim_text = str(item)`). -/
def pyStr : Json → String
  | .null => "None"
  | .bool true => "True"
  | .bool false => "False"
  | .num n => toString n
  | .str s => s
  | .arr xs => pyRepr (.arr xs)
  | .obj kvs => pyRepr (.obj kvs)

/-- Is the value a JSON object, i.e. a Python `dict` after `json.loads`
(line 108: `isinstance(item, dict)`). -/
def Json.isObj : Json → Bool
  | .obj _ => true
  | _ => false

/-- `dict.get(key)`: the value bound to `key`, or `none` when absent.
Key lists model Python dicts, whose keys are distinct. -/
def jget (kvs : List (String × Json)) (k : String) : Option Json :=
  (kvs.find? (fun kv => kv.1 == k)).map (·.2)

/-- Substring test on character lists: Python's `needle in hay`. -/
def listContains (needle : List Char) : List Char → Bool
  | [] => needle.isEmpty
  | c :: rest => needle.isPrefixOf (c :: rest) || listContains needle rest

/-- Python `needle in hay` on strings (substring containment). -/
def strContains (hay needle : String) : Bool :=
  listContains needle.data hay.data

/-- Python `str.lower()`.  `Char.toLower` covers the ASCII range, which
is exact for every string the analysis inputs in this development use. -/
def lowerStr (s : String) : String := ⟨s.data.map Char.toLower⟩

/-- Python `str.strip()`: leading and trailing whitespace removed. -/
def pyStrip (s : String) : String :=
  ⟨((s.data.dropWhile Char.isWhitespace).reverse.dropWhile Char.isWhitespace).reverse⟩

/-- Accumulator-based splitter behind `pyWords`: walks the characters,
collecting the current word reversed in `acc`, emitting a word at each
whitespace run boundary. -/
def pyWordsChars : List Char → List Char → List String
  | [], acc => if acc.isEmpty then [] else [⟨acc.reverse⟩]
  | c :: rest, acc =>
    if c.isWhitespace then
      (if acc.isEmpty then [] else [⟨acc.reverse⟩]) ++ pyWordsChars rest []
    else pyWordsChars rest (c :: acc)

/-- Python `str.split()` with no separator: maximal whitespace-free runs,
in order; leading/trailing/repeated whitespace produces no empty words. -/
def pyWords (s : String) : List String := pyWordsChars s.data []

/-- One page's extracted content: `chunk['text']` and
`chunk['metadata']['page']`. -/
structure Chunk where
  text : String
  page : Nat

/-- One registry entry, mirroring the dict built at lines 117-124.
`status` is the literal status string; `context` keeps the raw value the
oracle supplied (Python stores it unconverted). -/
structure Claim where
  id : Nat
  text : String
  context : Json
  page : Nat
  status : String
  evidence : Option String

/-- An entry of the oracle's `claim_updates` list.  `id` and `status` are
`dict.get` results (`none` = key absent); `reason` is kept as the string
the f-string at line 135 renders it to. -/
structure ClaimUpdate where
  id : Option Nat
  status : Option String
  reason : String

/-- An entry of the oracle's `findings` list, before Pass 1 stamps the
page: three response-schema strings plus whatever `page` value the oracle
chose to include (overwritten at line 103). -/
structure OracleFinding where
  category : String
  quote : String
  reasoning : String
  page : Json

/-- A finding as appended to the result list: the oracle fields with
`page` set to the analyzed chunk's page (line 103). -/
structure Finding where
  category : String
  quote : String
  reasoning : String
  page : Nat

/-- A successfully parsed Pass-1 oracle response.  Each of the three keys
is optional in the JSON; an absent or null key behaves exactly like an
empty list at lines 101, 106 and 127, so absence is modelled as `[]`. -/
structure AnalyzeResponse where
  findings : List OracleFinding
  new_claims : List Json
  claim_updates : List ClaimUpdate

/-- A parsed Pass-2 adjudication response: `is_evidence` is the raw
`dict.get` result, `reason` the string the f-string at line 206 renders
`verification.get('reason')` to. -/
structure VerifyResult where
  is_evidence : Option Json
  reason : String

/-- The Pass-1 oracle `_analyze_single_chunk`, indexed by chunk position:
`none` models the caught exception path (lines 299-301).  Indexing by
position rather than by arguments lets the response differ between calls,
modelling network nondeterminism; the arguments the code actually sends
are recorded in the run's call trace. -/
def P1Oracle : Type := Nat → Option AnalyzeResponse

/-- The Pass-2 oracle `_verify_claim_with_llm`, indexed by the scanned
claim's id and the candidate chunk's page; `none` models the caught
exception path (line 357). -/
def P2Oracle : Type := Nat → Nat → Option VerifyResult

/-- Python's `result.get('is_evidence') is True` (line 204): only the
literal boolean `true` passes. -/
def isTrueLiteral : Option Json → Bool
  | some (Json.bool true) => true
  | _ => false

/-- Keywords of a claim text (line 186):
`[w for w in claim['text'].split() if len(w) > 5]`. -/
def keywordsOf (text : String) : List String :=
  (pyWords text).filter (fun w => decide (5 < w.length))

/-- Pre-filter hit count (line 196):
`sum(1 for k in keywords if k.lower() in chunk['text'].lower())`. -/
def hitCount (kws : List String) (chunkText : String) : Nat :=
  kws.countP (fun k => strContains (lowerStr chunkText) (lowerStr k))

/-- Pre-filter decision (line 198): `hits / len(keywords) > 0.3`.
The source compares IEEE doubles; for every keyword count a claim text
can produce the double comparison coincides with the exact rational
comparison `hits / total > 3/10`, i.e. `3 * total < 10 * hits`. -/
def passesFilter (kws : List String) (chunkText : String) : Bool :=
  decide (3 * kws.length < 10 * hitCount kws chunkText)

/-- One recorded Pass-2 interaction for a (claim, chunk) pair:
`oracleCalled = false` records that the pre-filter was evaluated for the
chunk, `oracleCalled = true` that the adjudication oracle was invoked. -/
structure P2Event where
  claimId : Nat
  claimPage : Nat
  chunkPage : Nat
  oracleCalled : Bool
deriving DecidableEq

/-- The evidence string Pass 2 writes on verification (line 206). -/
def deepEvidence (page : Nat) (reason : String) : String :=
  "Deep-Search (S. " ++ toString page ++ "): " ++ reason

/-- The inner chunk scan of `deep_verify_claims` for one open claim
(lines 189-207): skip the claim's own page, evaluate the pre-filter,
adjudicate passing chunks, promote on the first literally-true verdict
and stop; a failed call or a non-true verdict continues the scan. -/
def scanChunks (oracle : P2Oracle) (claim : Claim) (kws : List String) :
    List Chunk → Claim × List P2Event
  | [] => (claim, [])
  | ch :: rest =>
    if ch.page = claim.page then
      scanChunks oracle claim kws rest
    else
      let filt : P2Event := ⟨claim.id, claim.page, ch.page, false⟩
      if passesFilter kws ch.text then
        let callE : P2Event := ⟨claim.id, claim.page, ch.page, true⟩
        match oracle claim.id ch.page with
        | some v =>
          if isTrueLiteral v.is_evidence then
            ({ claim with
                status := "POTENTIALLY_VERIFIED",
                evidence := some (deepEvidence ch.page v.reason) },
             [filt, callE])
          else
            let r := scanChunks oracle claim kws rest
            (r.1, filt :: callE :: r.2)
        | none =>
            let r := scanChunks oracle claim kws rest
            (r.1, filt :: callE :: r.2)
      else
        let r := scanChunks oracle claim kws rest
        (r.1, filt :: r.2)

/-- Pass 2's treatment of a single registry entry: non-open claims are
untouched (line 179 filters them out), a keyword-less claim is skipped
outright (line 187), otherwise the chunk scan runs. -/
def processClaim (oracle : P2Oracle) (chunks : List Chunk) (c : Claim) :
    Claim × List P2Event :=
  if c.status = "OPEN" then
    let kws := keywordsOf c.text
    if kws.isEmpty then (c, [])
    else scanChunks oracle c kws chunks
  else (c, [])

/-- `deep_verify_claims` (lines 153-210) together with its interaction
trace.  The guard mirrors line 180: with no open claims the registry is
returned untouched and no work happens.  The source mutates the claim
dicts in place and returns the same list object; the functional reading
maps each entry to its scanned version. -/
def deep_verify_claims (oracle : P2Oracle) (chunks : List Chunk)
    (current_claims : List Claim) : List Claim × List P2Event :=
  let openClaims := current_claims.filter (fun c => c.status == "OPEN")
  if openClaims.isEmpty then (current_claims, [])
  else
    let results := current_claims.map (processClaim oracle chunks)
    (results.map Prod.fst, (results.map Prod.snd).flatten)

/-- One recorded Pass-1 oracle call: the current chunk's page together
with the three text windows assembled at lines 93-94 and passed to
`_analyze_single_chunk`. -/
structure P1Call where
  page : Nat
  prevText : String
  currText : String
  nextText : String

/-- The mutable state Pass 1 threads through its chunk loop
(lines 76-87), plus the instrumented call trace. -/
structure P1State where
  findings : List Finding
  claims : List Claim
  counter : Nat
  failed : List Nat
  calls : List P1Call

/-- Pass-1 initial state: `findings = []`, `claims_memory = []`,
`claim_counter = 1`, `failed_pages = []` (lines 76-78, 87). -/
def initState : P1State := ⟨[], [], 1, [], []⟩

/-- Line 103: `f["page"] = chunk['metadata']['page']` — the finding keeps
the oracle's three schema fields and gets the analyzed chunk's page, no
matter what page value the oracle wrote. -/
def attributeFinding (page : Nat) (f : OracleFinding) : Finding :=
  ⟨f.category, f.quote, f.reasoning, page⟩

/-- Registration of one `new_claims` entry (lines 107-125): a dict entry
contributes its `claim`/`context` values, any other entry is coerced with
`str()` and given the context `"Kein Kontext."`; an entry whose claim
text is missing or empty after stripping is dropped without advancing the
counter.  A dict whose `claim` value is a truthy non-string would raise
`AttributeError` at line 116 in the source; that path lies outside the
oracle's declared response schema and is modelled as a drop. -/
def addNewClaim (page : Nat) (st : P1State) (item : Json) : P1State :=
  match item with
  | Json.obj kvs =>
    match jget kvs "claim" with
    | some (Json.str s) =>
      if s != "" && pyStrip s != "" then
        { st with
            claims := st.claims ++
              [⟨st.counter, s, (jget kvs "context").getD Json.null, page, "OPEN", none⟩],
            counter := st.counter + 1 }
      else st
    | _ => st
  | j =>
    let s := pyStr j
    if s != "" && pyStrip s != "" then
      { st with
          claims := st.claims ++
            [⟨st.counter, s, Json.str "Kein Kontext.", page, "OPEN", none⟩],
          counter := st.counter + 1 }
    else st

/-- The evidence string Pass 1 writes on a claim update (line 135). -/
def passOneEvidence (page : Nat) (reason : String) : String :=
  "Seite " ++ toString page ++ ": " ++ reason

/-- Application of one claim update to one registry entry
(lines 131-135): only an entry whose id is the update's target and whose
status is `OPEN` is promoted. -/
def applyUpdate1 (page : Nat) (u : ClaimUpdate) (c : Claim) : Claim :=
  if u.id = some c.id ∧ c.status = "OPEN" then
    { c with
        status := "POTENTIALLY_VERIFIED",
        evidence := some (passOneEvidence page u.reason) }
  else c

/-- Application of one claim update to the registry (lines 128-135): an
update whose status is not `POTENTIALLY_VERIFIED` is skipped outright
(line 129-130), otherwise every matching open entry is promoted. -/
def applyUpdate (page : Nat) (claims : List Claim) (u : ClaimUpdate) : List Claim :=
  if u.status = some "POTENTIALLY_VERIFIED" then
    claims.map (applyUpdate1 page u)
  else claims

/-- Processing of one successful oracle response (lines 100-135):
findings are page-stamped and appended, new claims registered in order,
then claim updates applied. -/
def processResponse (page : Nat) (st : P1State) (r : AnalyzeResponse) : P1State :=
  let st1 := { st with findings := st.findings ++ r.findings.map (attributeFinding page) }
  let st2 := r.new_claims.foldl (addNewClaim page) st1
  { st2 with claims := r.claim_updates.foldl (applyUpdate page) st2.claims }

/-- The previous-page context window (line 93):
`chunks[i-1]['text'] if i > 0 else ""`. -/
def prevCtx (chunks : List Chunk) (i : Nat) : String :=
  if 0 < i then (chunks.getD (i - 1) ⟨"", 0⟩).text else ""

/-- The next-page context window (line 94):
`chunks[i+1]['text'] if i < total_chunks - 1 else ""`. -/
def nextCtx (chunks : List Chunk) (i : Nat) : String :=
  if i < chunks.length - 1 then (chunks.getD (i + 1) ⟨"", 0⟩).text else ""

/-- One iteration of the Pass-1 chunk loop (lines 88-135): assemble the
context windows, call the oracle (recorded in the trace), then either
record the failed page or process the response. -/
def pass1Step (oracle : P1Oracle) (chunks : List Chunk) (i : Nat) (chunk : Chunk)
    (st : P1State) : P1State :=
  let st := { st with
    calls := st.calls ++ [⟨chunk.page, prevCtx chunks i, chunk.text, nextCtx chunks i⟩] }
  match oracle i with
  | none => { st with failed := st.failed ++ [chunk.page] }
  | some r => processResponse chunk.page st r

/-- The Pass-1 loop over the remaining chunks, carrying the position of
the head of `rest` within the full chunk list. -/
def pass1Go (oracle : P1Oracle) (chunks : List Chunk) :
    List Chunk → Nat → P1State → P1State
  | [], _, st => st
  | c :: rest, i, st => pass1Go oracle chunks rest (i + 1) (pass1Step oracle chunks i c st)

/-- The full Pass-1 run over a chunk list, from the initial state. -/
def pass1Run (oracle : P1Oracle) (chunks : List Chunk) : P1State :=
  pass1Go oracle chunks chunks 0 initState

/-- The dict `analyze_report` returns, with one `Option` field per
possible key: `none` means the key is absent from the returned dict. -/
structure AnalyzeResult where
  findings : Option (List Finding)
  claim_registry : Option (List Claim)
  total_chunks : Option Nat
  model_used : Option String
  error : Option String

/-- Line 143: `', '.join(map(str, failed_pages))`. -/
def joinPages (pages : List Nat) : String :=
  String.intercalate ", " (pages.map toString)

/-- `analyze_report` (lines 44-151): the API-unavailable early return
(line 74), the degraded return naming the failed pages (lines 139-144)
and the fully successful return (lines 146-151). -/
def analyze_report (api_ready : Bool) (model : String) (oracle : P1Oracle)
    (chunks : List Chunk) : AnalyzeResult :=
  if !api_ready then ⟨none, none, none, none, some "API Key fehlt."⟩
  else
    let st := pass1Run oracle chunks
    if !st.failed.isEmpty then
      ⟨some st.findings, some st.claims, none, none,
       some ("API-Fehler auf Seiten: " ++ joinPages st.failed)⟩
    else
      ⟨some st.findings, some st.claims, some chunks.length, some model, none⟩

/-- Does the Pass-2 oracle affirm evidence for the claim on this page,
under the strict check of line 204: a successful call whose
`is_evidence` is the literal boolean `true`. -/
def affirms (oracle : P2Oracle) (claimId page : Nat) : Bool :=
  match oracle claimId page with
  | some v => isTrueLiteral v.is_evidence
  | none => false

/-- The event trace of a Pass-2 chunk scan that runs to the end of the
chunk list without any affirming verdict: every non-origin-page chunk
gets a pre-filter evaluation, and every passing chunk additionally gets
an adjudication call.  This list does not depend on the oracle. -/
def fullScanEvents (claim : Claim) (kws : List String) : List Chunk → List P2Event
  | [] => []
  | ch :: rest =>
    if ch.page = claim.page then fullScanEvents claim kws rest
    else if passesFilter kws ch.text then
      ⟨claim.id, claim.page, ch.page, false⟩ :: ⟨claim.id, claim.page, ch.page, true⟩ ::
        fullScanEvents claim kws rest
    else
      ⟨claim.id, claim.page, ch.page, false⟩ :: fullScanEvents claim kws rest

/-- The pages of the chunks (listed from position `i` onward) whose
Pass-1 oracle call fails, in document order — what `failed_pages` holds
after the loop. -/
def failedOf (oracle : P1Oracle) : List Chunk → Nat → List Nat
  | [], _ => []
  | c :: rest, i =>
    (match oracle i with
     | none => [c.page]
     | some _ => []) ++ failedOf oracle rest (i + 1)

/-- The findings gathered from the chunks listed from position `i`
onward: each successful call's findings, stamped with that chunk's own
page. -/
def findingsOf (oracle : P1Oracle) : List Chunk → Nat → List Finding
  | [], _ => []
  | c :: rest, i =>
    (match oracle i with
     | some r => r.findings.map (attributeFinding c.page)
     | none => []) ++ findingsOf oracle rest (i + 1)

/-- The oracle calls Pass 1 issues for the chunks listed from position
`i` onward: one call per chunk, carrying the chunk's page, its own text
and the two context windows. -/
def callsOf (chunks : List Chunk) : List Chunk → Nat → List P1Call
  | [], _ => []
  | c :: rest, i =>
    ⟨c.page, prevCtx chunks i, c.text, nextCtx chunks i⟩ :: callsOf chunks rest (i + 1)

/-- Scan step, origin-page case (line 193): the chunk is skipped before
the pre-filter or the oracle runs. -/
theorem scanChunks_skip {o : P2Oracle} {c : Claim} {kws : List String}
    {ch : Chunk} {rest : List Chunk} (h : ch.page = c.page) :
    scanChunks o c kws (ch :: rest) = scanChunks o c kws rest := by
  simp [scanChunks, h]

/-- Scan step, pre-filter miss: only the pre-filter evaluation is
recorded, the scan moves on. -/
theorem scanChunks_nofilter {o : P2Oracle} {c : Claim} {kws : List String}
    {ch : Chunk} {rest : List Chunk} (h : ¬ch.page = c.page)
    (hf : passesFilter kws ch.text = false) :
    scanChunks o c kws (ch :: rest) =
      ((scanChunks o c kws rest).1,
       ⟨c.id, c.page, ch.page, false⟩ :: (scanChunks o c kws rest).2) := by
  simp [scanChunks, h, hf]

/-- Scan step, affirming verdict (lines 204-207): the claim is promoted,
the evidence string written, and the scan stops. -/
theorem scanChunks_affirm {o : P2Oracle} {c : Claim} {kws : List String}
    {ch : Chunk} {rest : List Chunk} {v : VerifyResult} (h : ¬ch.page = c.page)
    (hf : passesFilter kws ch.text = true) (ho : o c.id ch.page = some v)
    (hev : isTrueLiteral v.is_evidence = true) :
    scanChunks o c kws (ch :: rest) =
      ({ c with status := "POTENTIALLY_VERIFIED",
                evidence := some (deepEvidence ch.page v.reason) },
       [⟨c.id, c.page, ch.page, false⟩, ⟨c.id, c.page, ch.page, true⟩]) := by
  simp [scanChunks, h, hf, ho, hev]

/-- Scan step, failed adjudication call (`None`, line 357): treated as no
evidence, the scan continues with the next chunk. -/
theorem scanChunks_callFailed {o : P2Oracle} {c : Claim} {kws : List String}
    {ch : Chunk} {rest : List Chunk} (h : ¬ch.page = c.page)
    (hf : passesFilter kws ch.text = true) (ho : o c.id ch.page = none) :
    scanChunks o c kws (ch :: rest) =
      ((scanChunks o c kws rest).1,
       ⟨c.id, c.page, ch.page, false⟩ :: ⟨c.id, c.page, ch.page, true⟩ ::
         (scanChunks o c kws rest).2) := by
  simp [scanChunks, h, hf, ho]

/-- Scan step, non-affirming verdict (anything but the literal boolean
`true`): the claim is untouched, the scan continues. -/
theorem scanChunks_notTrue {o : P2Oracle} {c : Claim} {kws : List String}
    {ch : Chunk} {rest : List Chunk} {v : VerifyResult} (h : ¬ch.page = c.page)
    (hf : passesFilter kws ch.text = true) (ho : o c.id ch.page = some v)
    (hev : isTrueLiteral v.is_evidence = false) :
    scanChunks o c kws (ch :: rest) =
      ((scanChunks o c kws rest).1,
       ⟨c.id, c.page, ch.page, false⟩ :: ⟨c.id, c.page, ch.page, true⟩ ::
         (scanChunks o c kws rest).2) := by
  simp [scanChunks, h, hf, ho, hev]

/-- Every event of a Pass-2 chunk scan carries the scanned claim's id
and origin page, and concerns a chunk on a different page: the origin
page is skipped before the pre-filter is even evaluated. -/
theorem scan_eventPages (o : P2Oracle) (c : Claim) (kws : List String) :
    ∀ l : List Chunk, ∀ e ∈ (scanChunks o c kws l).2,
      e.claimId = c.id ∧ e.claimPage = c.page ∧ e.chunkPage ≠ c.page := by
  intro l
  induction l with
  | nil => intro e he; simp [scanChunks] at he
  | cons ch rest ih =>
    intro e he
    by_cases hpg : ch.page = c.page
    · rw [scanChunks_skip hpg] at he
      exact ih e he
    · by_cases hf : passesFilter kws ch.text = true
      · cases ho : o c.id ch.page with
        | some v =>
          by_cases hev : isTrueLiteral v.is_evidence = true
          · rw [scanChunks_affirm hpg hf ho hev] at he
            simp at he
            rcases he with he | he <;> subst he <;> exact ⟨rfl, rfl, hpg⟩
          · rw [scanChunks_notTrue hpg hf ho (by simpa using hev)] at he
            simp at he
            rcases he with he | he | he
            · subst he; exact ⟨rfl, rfl, hpg⟩
            · subst he; exact ⟨rfl, rfl, hpg⟩
            · exact ih e he
        | none =>
          rw [scanChunks_callFailed hpg hf ho] at he
          simp at he
          rcases he with he | he | he
          · subst he; exact ⟨rfl, rfl, hpg⟩
          · subst he; exact ⟨rfl, rfl, hpg⟩
          · exact ih e he
      · rw [scanChunks_nofilter hpg (by simpa using hf)] at he
        simp at he
        rcases he with he | he
        · subst he; exact ⟨rfl, rfl, hpg⟩
        · exact ih e he

/-- A Pass-2 chunk scan either leaves the claim untouched or promotes it
on the strength of a literally-true verdict for some non-origin chunk of
the scanned list, writing the Deep-Search evidence string for that
chunk's page. -/
theorem scan_result (o : P2Oracle) (c : Claim) (kws : List String) :
    ∀ l : List Chunk, (scanChunks o c kws l).1 = c ∨
      ∃ ch ∈ l, ch.page ≠ c.page ∧ ∃ v, o c.id ch.page = some v ∧
        isTrueLiteral v.is_evidence = true ∧
        (scanChunks o c kws l).1 =
          { c with status := "POTENTIALLY_VERIFIED",
                   evidence := some (deepEvidence ch.page v.reason) } := by
  intro l
  induction l with
  | nil => left; simp [scanChunks]
  | cons ch rest ih =>
    by_cases hpg : ch.page = c.page
    · rw [scanChunks_skip hpg]
      rcases ih with h | ⟨ch', hm, h⟩
      · left; exact h
      · right; exact ⟨ch', List.mem_cons_of_mem _ hm, h⟩
    · by_cases hf : passesFilter kws ch.text = true
      · cases ho : o c.id ch.page with
        | some v =>
          by_cases hev : isTrueLiteral v.is_evidence = true
          · rw [scanChunks_affirm hpg hf ho hev]
            right
            exact ⟨ch, List.mem_cons_self _ _, hpg, v, ho, hev, rfl⟩
          · rw [scanChunks_notTrue hpg hf ho (by simpa using hev)]
            rcases ih with h | ⟨ch', hm, h⟩
            · left; exact h
            · right; exact ⟨ch', List.mem_cons_of_mem _ hm, h⟩
        | none =>
          rw [scanChunks_callFailed hpg hf ho]
          rcases ih with h | ⟨ch', hm, h⟩
          · left; exact h
          · right; exact ⟨ch', List.mem_cons_of_mem _ hm, h⟩
      · rw [scanChunks_nofilter hpg (by simpa using hf)]
        rcases ih with h | ⟨ch', hm, h⟩
        · left; exact h
        · right; exact ⟨ch', List.mem_cons_of_mem _ hm, h⟩

/-- An initially open claim ends a Pass-2 chunk scan as
`POTENTIALLY_VERIFIED` exactly when some adjudication call of the scan
came back with the literal boolean `true`. -/
theorem scan_pv_iff (o : P2Oracle) (c : Claim) (kws : List String)
    (hopen : c.status = "OPEN") :
    ∀ l : List Chunk,
      (scanChunks o c kws l).1.status = "POTENTIALLY_VERIFIED" ↔
      ∃ e ∈ (scanChunks o c kws l).2,
        e.oracleCalled = true ∧ affirms o c.id e.chunkPage = true := by
  have hne : ("OPEN" : String) ≠ "POTENTIALLY_VERIFIED" := by decide
  intro l
  induction l with
  | nil =>
    simp only [scanChunks]
    rw [hopen]
    simp [hne]
  | cons ch rest ih =>
    by_cases hpg : ch.page = c.page
    · rw [scanChunks_skip hpg]
      exact ih
    · by_cases hf : passesFilter kws ch.text = true
      · cases ho : o c.id ch.page with
        | some v =>
          by_cases hev : isTrueLiteral v.is_evidence = true
          · rw [scanChunks_affirm hpg hf ho hev]
            constructor
            · intro _
              exact ⟨⟨c.id, c.page, ch.page, true⟩, by simp, rfl,
                     by simp [affirms, ho, hev]⟩
            · intro _; rfl
          · rw [scanChunks_notTrue hpg hf ho (by simpa using hev)]
            have haff : affirms o c.id ch.page = false := by
              simp [affirms, ho]
              simpa using hev
            simp only [List.mem_cons]
            constructor
            · intro h
              rcases ih.mp h with ⟨e, hm, h1, h2⟩
              exact ⟨e, Or.inr (Or.inr hm), h1, h2⟩
            · rintro ⟨e, he | he | he, h1, h2⟩
              · subst he; simp at h1
              · subst he; simp [haff] at h2
              · exact ih.mpr ⟨e, he, h1, h2⟩
        | none =>
          rw [scanChunks_callFailed hpg hf ho]
          have haff : affirms o c.id ch.page = false := by
            simp [affirms, ho]
          simp only [List.mem_cons]
          constructor
          · intro h
            rcases ih.mp h with ⟨e, hm, h1, h2⟩
            exact ⟨e, Or.inr (Or.inr hm), h1, h2⟩
          · rintro ⟨e, he | he | he, h1, h2⟩
            · subst he; simp at h1
            · subst he; simp [haff] at h2
            · exact ih.mpr ⟨e, he, h1, h2⟩
      · rw [scanChunks_nofilter hpg (by simpa using hf)]
        simp only [List.mem_cons]
        constructor
        · intro h
          rcases ih.mp h with ⟨e, hm, h1, h2⟩
          exact ⟨e, Or.inr hm, h1, h2⟩
        · rintro ⟨e, he | he, h1, h2⟩
          · subst he; simp at h1
          · exact ih.mpr ⟨e, he, h1, h2⟩

/-- First confirming evidence wins: every adjudication call of a Pass-2
chunk scan except possibly the final recorded event came back
non-affirming — the scan never continues past an affirming verdict. -/
theorem scan_stop (o : P2Oracle) (c : Claim) (kws : List String) :
    ∀ l : List Chunk, ∀ e ∈ ((scanChunks o c kws l).2).dropLast,
      e.oracleCalled = true → affirms o c.id e.chunkPage = false := by
  intro l
  induction l with
  | nil => intro e he; simp [scanChunks] at he
  | cons ch rest ih =>
    intro e he hcall
    by_cases hpg : ch.page = c.page
    · rw [scanChunks_skip hpg] at he
      exact ih e he hcall
    · by_cases hf : passesFilter kws ch.text = true
      · cases ho : o c.id ch.page with
        | some v =>
          by_cases hev : isTrueLiteral v.is_evidence = true
          · rw [scanChunks_affirm hpg hf ho hev] at he
            simp [List.dropLast] at he
            subst he; simp at hcall
          · rw [scanChunks_notTrue hpg hf ho (by simpa using hev)] at he
            have haff : affirms o c.id ch.page = false := by
              simp [affirms, ho]; simpa using hev
            cases hr : (scanChunks o c kws rest).2 with
            | nil => simp [hr, List.dropLast] at he; subst he; exact haff
            | cons y ys =>
              rw [hr] at he
              simp only [List.dropLast] at he
              rcases (List.mem_cons.mp he) with he | he
              · subst he; simp at hcall
              · rcases (List.mem_cons.mp he) with he | he
                · subst he; exact haff
                · rw [← hr] at he
                  exact ih e he hcall
        | none =>
          rw [scanChunks_callFailed hpg hf ho] at he
          have haff : affirms o c.id ch.page = false := by
            simp [affirms, ho]
          cases hr : (scanChunks o c kws rest).2 with
          | nil => simp [hr, List.dropLast] at he; subst he; exact haff
          | cons y ys =>
            rw [hr] at he
            simp only [List.dropLast] at he
            rcases (List.mem_cons.mp he) with he | he
            · subst he; simp at hcall
            · rcases (List.mem_cons.mp he) with he | he
              · subst he; exact haff
              · rw [← hr] at he
                exact ih e he hcall
      · rw [scanChunks_nofilter hpg (by simpa using hf)] at he
        cases hr : (scanChunks o c kws rest).2 with
        | nil => simp [hr, List.dropLast] at he
        | cons y ys =>
          rw [hr] at he
          simp only [List.dropLast] at he
          rcases (List.mem_cons.mp he) with he | he
          · subst he; simp at hcall
          · rw [← hr] at he
            exact ih e he hcall

/-- When no pre-filter-passing non-origin chunk draws an affirming
verdict — in particular when calls fail — the scan runs over the whole
chunk list, leaves the claim untouched, and its trace is the full,
oracle-independent scan trace: a failed call never aborts the search. -/
theorem scan_noaffirm (o : P2Oracle) (c : Claim) (kws : List String) :
    ∀ l : List Chunk,
      (∀ ch ∈ l, ch.page ≠ c.page → passesFilter kws ch.text = true →
        affirms o c.id ch.page = false) →
      scanChunks o c kws l = (c, fullScanEvents c kws l) := by
  intro l
  induction l with
  | nil => intro _; simp [scanChunks, fullScanEvents]
  | cons ch rest ih =>
    intro h
    have hrest : ∀ ch' ∈ rest, ch'.page ≠ c.page → passesFilter kws ch'.text = true →
        affirms o c.id ch'.page = false :=
      fun ch' hm => h ch' (List.mem_cons_of_mem _ hm)
    by_cases hpg : ch.page = c.page
    · rw [scanChunks_skip hpg, ih hrest]
      simp [fullScanEvents, hpg]
    · by_cases hf : passesFilter kws ch.text = true
      · have haff := h ch (List.mem_cons_self _ _) hpg hf
        cases ho : o c.id ch.page with
        | some v =>
          have hev : isTrueLiteral v.is_evidence = false := by
            have := haff
            simp [affirms, ho] at this
            simpa using this
          rw [scanChunks_notTrue hpg hf ho hev, ih hrest]
          simp [fullScanEvents, hpg, hf]
        | none =>
          rw [scanChunks_callFailed hpg hf ho, ih hrest]
          simp [fullScanEvents, hpg, hf]
      · rw [scanChunks_nofilter hpg (by simpa using hf), ih hrest]
        simp only [fullScanEvents, if_neg hpg]
        rw [if_neg (by simpa using hf)]

/-- Every event recorded while Pass 2 handles a single registry entry
concerns a chunk whose page differs from that claim's origin page. -/
theorem processClaim_events (o : P2Oracle) (chunks : List Chunk) (c : Claim) :
    ∀ e ∈ (processClaim o chunks c).2,
      e.claimPage = c.page ∧ e.chunkPage ≠ c.page := by
  intro e he
  unfold processClaim at he
  by_cases hst : c.status = "OPEN"
  · rw [if_pos hst] at he
    by_cases hkw : (keywordsOf c.text).isEmpty = true
    · simp only [hkw, if_pos] at he
      simp at he
    · rw [if_neg hkw] at he
      have := scan_eventPages o c (keywordsOf c.text) chunks e he
      exact ⟨this.2.1, this.2.2⟩
  · rw [if_neg hst] at he
    simp at he

/-- Pass-1 run refuting self-verification freedom in Pass 1: a single
chunk with page 1 whose oracle response registers one claim and, in the
same response, reports a `POTENTIALLY_VERIFIED` update for it. -/
def c1Chunks : List Chunk := [⟨"Wir werden bis 2030 klimaneutral.", 1⟩]

/-- Oracle for the `c1Chunks` run: one new claim plus an update that
verifies it from the very page it originates on. -/
def c1Oracle : P1Oracle := fun _ =>
  some ⟨[],
        [Json.obj [("claim", Json.str "Klimaneutral bis 2030"),
                   ("context", Json.str "Strategie")]],
        [⟨some 1, some "POTENTIALLY_VERIFIED", "Beleg auf derselben Seite"⟩]⟩

/-- C1, counterexample.  The claim asserts that in Pass 1 as well a claim
is never set to `POTENTIALLY_VERIFIED` on evidence from the chunk whose
page equals the claim's own origin page.  In this run the only chunk has
page 1; the oracle's response creates claim 1 with origin page 1 and its
`claim_updates` entry is applied with no page check (lines 127-135), so
the registered claim ends the run `POTENTIALLY_VERIFIED` with the
evidence string naming its own origin page 1. -/
theorem C1_counterexample :
    (pass1Run c1Oracle c1Chunks).claims =
      [⟨1, "Klimaneutral bis 2030", Json.str "Strategie", 1,
        "POTENTIALLY_VERIFIED", some "Seite 1: Beleg auf derselben Seite"⟩] := rfl

/-- C1, amended: self-verification is forbidden in Pass 2 only — every
event of a `deep_verify_claims` run (pre-filter evaluations and oracle
calls alike) concerns a chunk whose page differs from the scanned
claim's origin page, the origin chunk being skipped before the
pre-filter or the oracle can run; Pass 1 applies claim updates with no
such page check (see the counterexample). -/
theorem C1_pass2_no_self_verification (o : P2Oracle) (chunks : List Chunk)
    (claims : List Claim) :
    (∀ e ∈ (deep_verify_claims o chunks claims).2, e.chunkPage ≠ e.claimPage) ∧
    (∀ (c : Claim) (kws : List String) (l : List Chunk),
      ∀ e ∈ (scanChunks o c kws l).2, e.claimPage = c.page ∧ e.chunkPage ≠ c.page) := by
  constructor
  · intro e he
    unfold deep_verify_claims at he
    by_cases hg : (claims.filter (fun c => c.status == "OPEN")).isEmpty = true
    · rw [if_pos hg] at he
      simp at he
    · rw [if_neg hg] at he
      simp only [List.mem_flatten, List.mem_map] at he
      rcases he with ⟨lst, ⟨pr, ⟨c, hc, hpr⟩, hlst⟩, he⟩
      subst hpr
      subst hlst
      have := processClaim_events o chunks c e he
      rw [this.1]
      exact this.2
  · intro c kws l e he
    have := scan_eventPages o c kws l e he
    exact ⟨this.2.1, this.2.2⟩

/-- Open claim used by Pass-2 witness runs; origin page 1. -/
def wClaim : Claim := ⟨1, "reduktion massnahmen zertifiziert", Json.null, 1, "OPEN", none⟩

/-- Two chunks for Pass-2 witness runs: page 1 (the claim's own page)
and page 2, both matching one of the claim's three keywords. -/
def wChunks : List Chunk := [⟨"Auch hier Reduktion erreicht.", 1⟩, ⟨"Die Reduktion wurde 2023 erreicht.", 2⟩]

/-- Adjudication oracle answering with a non-boolean `"true"` string. -/
def wOracleStr : P2Oracle := fun _ _ => some ⟨some (Json.str "true"), "nur Text"⟩

/-- C1 witness: the amended theorem applied to the `wChunks` run, at the
pre-filter event the run records for page 2. -/
theorem C1_witness :
    (⟨1, 1, 2, false⟩ : P2Event) ∈ (deep_verify_claims wOracleStr wChunks [wClaim]).2 ∧
    (⟨1, 1, 2, false⟩ : P2Event).chunkPage ≠ (⟨1, 1, 2, false⟩ : P2Event).claimPage := by
  have hmem : (⟨1, 1, 2, false⟩ : P2Event) ∈ (deep_verify_claims wOracleStr wChunks [wClaim]).2 := by
    have h : (deep_verify_claims wOracleStr wChunks [wClaim]).2 =
        [⟨1, 1, 2, false⟩, ⟨1, 1, 2, true⟩] := by decide
    rw [h]; simp
  exact ⟨hmem,
    (C1_pass2_no_self_verification wOracleStr wChunks [wClaim]).1 ⟨1, 1, 2, false⟩ hmem⟩

/-- C2: in `deep_verify_claims`, an open claim's status is changed to
`POTENTIALLY_VERIFIED` if and only if some adjudication call of its scan
returned the literal boolean `true` in `is_evidence` (a string `"true"`,
a number, or a failed call never affirm — see `affirms`/`isTrueLiteral`);
the scan stops at the first affirming chunk in document order (every
earlier call is non-affirming), and when no call affirms — failed calls
included — the scan covers the complete chunk list and leaves the claim
untouched.  The last two conjuncts tie the per-claim scan to
`deep_verify_claims` itself. -/
theorem C2_strict_boolean_adjudication (o : P2Oracle) (c : Claim)
    (kws : List String) (l : List Chunk) (hopen : c.status = "OPEN") :
    ((scanChunks o c kws l).1.status = "POTENTIALLY_VERIFIED" ↔
      ∃ e ∈ (scanChunks o c kws l).2,
        e.oracleCalled = true ∧ affirms o c.id e.chunkPage = true) ∧
    (∀ e ∈ ((scanChunks o c kws l).2).dropLast,
      e.oracleCalled = true → affirms o c.id e.chunkPage = false) ∧
    ((∀ ch ∈ l, ch.page ≠ c.page → passesFilter kws ch.text = true →
        affirms o c.id ch.page = false) →
      scanChunks o c kws l = (c, fullScanEvents c kws l)) ∧
    ((keywordsOf c.text).isEmpty = false →
      processClaim o l c = scanChunks o c (keywordsOf c.text) l) ∧
    (∀ claims : List Claim,
      (claims.filter (fun x => x.status == "OPEN")).isEmpty = false →
      (deep_verify_claims o l claims).1 =
        claims.map (fun x => (processClaim o l x).1)) := by
  refine ⟨scan_pv_iff o c kws hopen l, scan_stop o c kws l, scan_noaffirm o c kws l, ?_, ?_⟩
  · intro hkw
    unfold processClaim
    rw [if_pos hopen, if_neg (by simp [hkw])]
  · intro claims hg
    unfold deep_verify_claims
    rw [if_neg (by simp [hg])]
    simp

/-- Adjudication oracle affirming with the literal boolean `true`. -/
def wOracleTrue : P2Oracle := fun _ _ => some ⟨some (Json.bool true), "Zahlen genannt"⟩

/-- C2 witness: the theorem applied to the open claim `wClaim` over
`wChunks` with the affirming oracle; the `iff` holds at a run whose scan
does promote the claim. -/
theorem C2_witness :
    wClaim.status = "OPEN" ∧
    ((scanChunks wOracleTrue wClaim ["reduktion", "massnahmen", "zertifiziert"] wChunks).1.status
        = "POTENTIALLY_VERIFIED" ↔
      ∃ e ∈ (scanChunks wOracleTrue wClaim ["reduktion", "massnahmen", "zertifiziert"] wChunks).2,
        e.oracleCalled = true ∧ affirms wOracleTrue wClaim.id e.chunkPage = true) :=
  ⟨rfl,
   (C2_strict_boolean_adjudication wOracleTrue wClaim
     ["reduktion", "massnahmen", "zertifiziert"] wChunks rfl).1⟩

/-- C4: statuses move only `OPEN → POTENTIALLY_VERIFIED` and never back.
A Pass-1 claim update is a no-op unless its status is
`POTENTIALLY_VERIFIED` and it targets an existing entry that is `OPEN`;
when it does apply, it promotes exactly that entry.  Pass 2 on a
registry with no open claims records no event at all (in particular
makes no oracle call) and returns the registry unchanged, so running it
twice over a fully verified registry is a no-op both times. -/
theorem C4_status_monotonicity :
    (∀ (page : Nat) (claims : List Claim) (u : ClaimUpdate),
        u.status ≠ some "POTENTIALLY_VERIFIED" → applyUpdate page claims u = claims) ∧
    (∀ (page : Nat) (u : ClaimUpdate) (c : Claim),
        c.status ≠ "OPEN" → applyUpdate1 page u c = c) ∧
    (∀ (page : Nat) (u : ClaimUpdate) (c : Claim),
        u.id ≠ some c.id → applyUpdate1 page u c = c) ∧
    (∀ (page : Nat) (u : ClaimUpdate) (c : Claim),
        u.id = some c.id → c.status = "OPEN" →
        applyUpdate1 page u c =
          { c with status := "POTENTIALLY_VERIFIED",
                   evidence := some (passOneEvidence page u.reason) }) ∧
    (∀ (o : P2Oracle) (chunks : List Chunk) (claims : List Claim),
        (∀ c ∈ claims, c.status ≠ "OPEN") →
        deep_verify_claims o chunks claims = (claims, [])) ∧
    (∀ (o o2 : P2Oracle) (chunks chunks2 : List Chunk) (claims : List Claim),
        (∀ c ∈ claims, c.status = "POTENTIALLY_VERIFIED") →
        deep_verify_claims o chunks claims = (claims, []) ∧
        deep_verify_claims o2 chunks2 (deep_verify_claims o chunks claims).1 = (claims, [])) := by
  have hnoopen : ∀ (o : P2Oracle) (chunks : List Chunk) (claims : List Claim),
      (∀ c ∈ claims, c.status ≠ "OPEN") →
      deep_verify_claims o chunks claims = (claims, []) := by
    intro o chunks claims h
    have hfil : claims.filter (fun c => c.status == "OPEN") = [] := by
      rw [List.filter_eq_nil_iff]
      intro c hc
      simpa using h c hc
    unfold deep_verify_claims
    rw [hfil]
    simp
  refine ⟨?_, ?_, ?_, ?_, hnoopen, ?_⟩
  · intro page claims u h
    unfold applyUpdate
    rw [if_neg h]
  · intro page u c h
    unfold applyUpdate1
    rw [if_neg (fun hc => h hc.2)]
  · intro page u c h
    unfold applyUpdate1
    rw [if_neg (fun hc => h hc.1)]
  · intro page u c h1 h2
    unfold applyUpdate1
    rw [if_pos ⟨h1, h2⟩]
  · intro o o2 chunks chunks2 claims h
    have hne : ∀ c ∈ claims, c.status ≠ "OPEN" := by
      intro c hc
      rw [h c hc]
      decide
    have h1 := hnoopen o chunks claims hne
    refine ⟨h1, ?_⟩
    rw [h1]
    exact hnoopen o2 chunks2 claims hne

/-- A fully verified one-entry registry for the C4 witness. -/
def wVerifiedClaims : List Claim :=
  [⟨1, "reduktion massnahmen zertifiziert", Json.null, 1,
    "POTENTIALLY_VERIFIED", some "Seite 2: belegt"⟩]

/-- C4 witness: Pass 2 run twice over the fully verified registry
`wVerifiedClaims` is a no-op with an empty event trace both times. -/
theorem C4_witness :
    (∀ c ∈ wVerifiedClaims, c.status = "POTENTIALLY_VERIFIED") ∧
    deep_verify_claims wOracleTrue wChunks wVerifiedClaims = (wVerifiedClaims, []) ∧
    deep_verify_claims wOracleStr wChunks
      (deep_verify_claims wOracleTrue wChunks wVerifiedClaims).1 = (wVerifiedClaims, []) := by
  have h : ∀ c ∈ wVerifiedClaims, c.status = "POTENTIALLY_VERIFIED" := by decide
  have := C4_status_monotonicity.2.2.2.2.2 wOracleTrue wOracleStr wChunks wChunks
    wVerifiedClaims h
  exact ⟨h, this.1, this.2⟩

/-- C6: a claim's keywords are its whitespace-split words strictly longer
than 5 characters; an open claim with no keyword is skipped entirely by
Pass 2 (no chunk scanned, no event recorded, the entry returned as it
was); a chunk passes the pre-filter exactly when the fraction of keywords
occurring case-insensitively in its text exceeds 3/10; at the boundary,
1 hit out of 3 keywords passes and 0 out of 3 does not. -/
theorem C6_keyword_prefilter :
    (∀ (text w : String),
        w ∈ keywordsOf text ↔ (w ∈ pyWords text ∧ 5 < w.length)) ∧
    (∀ (o : P2Oracle) (chunks : List Chunk) (c : Claim),
        c.status = "OPEN" → keywordsOf c.text = [] →
        processClaim o chunks c = (c, [])) ∧
    (∀ (kws : List String) (text : String),
        passesFilter kws text = true ↔
          (3 : ℚ) / 10 < (hitCount kws text : ℚ) / (kws.length : ℚ)) ∧
    passesFilter ["reduktion", "massnahmen", "zertifiziert"]
      "Die reduktion wurde 2023 erreicht." = true ∧
    hitCount ["reduktion", "massnahmen", "zertifiziert"]
      "Die reduktion wurde 2023 erreicht." = 1 ∧
    passesFilter ["reduktion", "massnahmen", "zertifiziert"]
      "Nichts davon steht hier." = false ∧
    hitCount ["reduktion", "massnahmen", "zertifiziert"]
      "Nichts davon steht hier." = 0 := by
  refine ⟨?_, ?_, ?_, by decide, by decide, by decide, by decide⟩
  · intro text w
    simp [keywordsOf, List.mem_filter]
  · intro o chunks c hopen hkw
    simp [processClaim, hopen, hkw]
  · intro kws text
    rcases Nat.eq_zero_or_pos kws.length with h0 | hpos
    · have hnil : kws = [] := List.length_eq_zero.mp h0
      subst hnil
      simp [passesFilter, hitCount]
      norm_num
    · have hq : (0 : ℚ) < kws.length := by exact_mod_cast hpos
      constructor
      · intro h
        rw [div_lt_div_iff₀ (by norm_num) hq]
        have h' : 3 * kws.length < 10 * hitCount kws text := by
          simpa [passesFilter] using h
        exact_mod_cast (by omega : 3 * kws.length < hitCount kws text * 10)
      · intro h
        rw [div_lt_div_iff₀ (by norm_num) hq] at h
        have h' : 3 * kws.length < hitCount kws text * 10 := by exact_mod_cast h
        simp only [passesFilter, decide_eq_true_eq]
        omega

/-- An open claim none of whose words is longer than 5 characters. -/
def wShortClaim : Claim := ⟨2, "CO2 bis 2030", Json.null, 1, "OPEN", none⟩

/-- C6 witness: the skip rule applied to `wShortClaim`, whose keyword
list is empty — Pass 2 records nothing for it and leaves it open. -/
theorem C6_witness :
    wShortClaim.status = "OPEN" ∧
    keywordsOf wShortClaim.text = [] ∧
    processClaim wOracleTrue wChunks wShortClaim = (wShortClaim, []) :=
  ⟨rfl, by decide,
   C6_keyword_prefilter.2.1 wOracleTrue wChunks wShortClaim rfl (by decide)⟩

/-- C8: whenever a claim is promoted to `POTENTIALLY_VERIFIED`, its
evidence field is set to a string naming the evidencing page; Pass 1
writes `"Seite <page>: <reason>"`, Pass 2 writes
`"Deep-Search (S. <page>): <reason>"`, and the two formats are disjoint,
so the evidence string also tells the two passes apart. -/
theorem C8_evidence_format :
    (∀ (page : Nat) (u : ClaimUpdate) (c : Claim),
        (applyUpdate1 page u c).status ≠ c.status →
        (applyUpdate1 page u c).status = "POTENTIALLY_VERIFIED" ∧
        (applyUpdate1 page u c).evidence = some (passOneEvidence page u.reason)) ∧
    (∀ (p : Nat) (r : String),
        passOneEvidence p r = "Seite " ++ toString p ++ ": " ++ r) ∧
    (∀ (o : P2Oracle) (c : Claim) (kws : List String) (l : List Chunk),
        c.status = "OPEN" →
        (scanChunks o c kws l).1.status = "POTENTIALLY_VERIFIED" →
        ∃ p r, (scanChunks o c kws l).1.evidence = some (deepEvidence p r) ∧
          ∃ ch ∈ l, ch.page = p ∧ ch.page ≠ c.page ∧ affirms o c.id ch.page = true) ∧
    (∀ (p : Nat) (r : String),
        deepEvidence p r = "Deep-Search (S. " ++ toString p ++ "): " ++ r) ∧
    (∀ (p₁ : Nat) (r₁ : String) (p₂ : Nat) (r₂ : String),
        passOneEvidence p₁ r₁ ≠ deepEvidence p₂ r₂) := by
  refine ⟨?_, fun p r => rfl, ?_, fun p r => rfl, ?_⟩
  · intro page u c h
    unfold applyUpdate1 at h ⊢
    by_cases hc : u.id = some c.id ∧ c.status = "OPEN"
    · rw [if_pos hc] at h ⊢
      exact ⟨rfl, rfl⟩
    · rw [if_neg hc] at h
      exact absurd rfl h
  · intro o c kws l hopen hpv
    rcases scan_result o c kws l with h | ⟨ch, hm, hpg, v, ho, hev, h⟩
    · rw [h, hopen] at hpv
      exact absurd hpv (by decide)
    · exact ⟨ch.page, v.reason, by rw [h], ch, hm, rfl, hpg, by simp [affirms, ho, hev]⟩
  · intro p₁ r₁ p₂ r₂ h
    have h1 : (passOneEvidence p₁ r₁).data.head? = some 'S' := rfl
    have h2 : (deepEvidence p₂ r₂).data.head? = some 'D' := rfl
    rw [h, h2] at h1
    injection h1 with h3
    exact absurd h3 (by decide)

/-- C8 witness: a Pass-1 update applied to an open claim changes the
status and writes the Pass-1 evidence string. -/
theorem C8_witness :
    (applyUpdate1 3 ⟨some 1, some "POTENTIALLY_VERIFIED", "belegt"⟩ wClaim).status ≠
        wClaim.status ∧
    (applyUpdate1 3 ⟨some 1, some "POTENTIALLY_VERIFIED", "belegt"⟩ wClaim).status =
        "POTENTIALLY_VERIFIED" ∧
    (applyUpdate1 3 ⟨some 1, some "POTENTIALLY_VERIFIED", "belegt"⟩ wClaim).evidence =
        some (passOneEvidence 3 "belegt") := by
  have hne : (applyUpdate1 3 ⟨some 1, some "POTENTIALLY_VERIFIED", "belegt"⟩ wClaim).status ≠
      wClaim.status := by decide
  have := C8_evidence_format.1 3 ⟨some 1, some "POTENTIALLY_VERIFIED", "belegt"⟩ wClaim hne
  exact ⟨hne, this.1, this.2⟩

/-- Non-dict `new_claims` entries fall to the `str()` coercion branch of
lines 111-113; the registration condition of line 116 then decides. -/
theorem addNewClaim_nonObj (page : Nat) (st : P1State) (j : Json)
    (hobj : j.isObj = false) :
    addNewClaim page st j =
      if pyStr j != "" && pyStrip (pyStr j) != "" then
        { st with
            claims := st.claims ++
              [⟨st.counter, pyStr j, Json.str "Kein Kontext.", page, "OPEN", none⟩],
            counter := st.counter + 1 }
      else st := by
  cases j with
  | obj kvs => simp [Json.isObj] at hobj
  | null => rfl
  | bool b => rfl
  | num n => rfl
  | str s => rfl
  | arr xs => rfl

/-- C9: a `new_claims` entry that is not a dict is coerced with `str()`
— for a bare JSON string that coercion is the string itself — and, when
non-empty after stripping, registered as a claim whose text is that
string and whose context is the default `"Kein Kontext."`; otherwise it
is dropped. -/
theorem C9_bare_string_claims :
    (∀ s : String, pyStr (Json.str s) = s) ∧
    (∀ (page : Nat) (st : P1State) (j : Json), j.isObj = false →
        pyStrip (pyStr j) ≠ "" →
        addNewClaim page st j =
          { st with
              claims := st.claims ++
                [⟨st.counter, pyStr j, Json.str "Kein Kontext.", page, "OPEN", none⟩],
              counter := st.counter + 1 }) ∧
    (∀ (page : Nat) (st : P1State) (j : Json), j.isObj = false →
        pyStrip (pyStr j) = "" →
        addNewClaim page st j = st) := by
  refine ⟨fun s => rfl, ?_, ?_⟩
  · intro page st j hobj hstrip
    have hne : pyStr j ≠ "" := by
      intro h
      apply hstrip
      rw [h]
      rfl
    rw [addNewClaim_nonObj page st j hobj, if_pos]
    rw [Bool.and_eq_true, bne_iff_ne, bne_iff_ne]
    exact ⟨hne, hstrip⟩
  · intro page st j hobj hstrip
    rw [addNewClaim_nonObj page st j hobj, if_neg]
    rw [Bool.and_eq_true, bne_iff_ne, bne_iff_ne]
    rintro ⟨-, h2⟩
    exact h2 hstrip

/-- C9 witness: the bare JSON string `"Bare claim text"` is registered
from the initial Pass-1 state as claim 1 with the default context. -/
theorem C9_witness :
    (Json.str "Bare claim text").isObj = false ∧
    pyStrip (pyStr (Json.str "Bare claim text")) ≠ "" ∧
    addNewClaim 2 initState (Json.str "Bare claim text") =
      { initState with
          claims := initState.claims ++
            [⟨initState.counter, pyStr (Json.str "Bare claim text"),
              Json.str "Kein Kontext.", 2, "OPEN", none⟩],
          counter := initState.counter + 1 } :=
  ⟨rfl, by decide,
   C9_bare_string_claims.2.1 2 initState (Json.str "Bare claim text") rfl (by decide)⟩

/-- Registering a `new_claims` entry never touches the findings list. -/
theorem addNewClaim_findings (p : Nat) (st : P1State) (j : Json) :
    (addNewClaim p st j).findings = st.findings := by
  unfold addNewClaim
  dsimp only
  repeat' split
  all_goals rfl

/-- Registering a `new_claims` entry never touches the failed-pages list. -/
theorem addNewClaim_failed (p : Nat) (st : P1State) (j : Json) :
    (addNewClaim p st j).failed = st.failed := by
  unfold addNewClaim
  dsimp only
  repeat' split
  all_goals rfl

/-- Registering a `new_claims` entry never touches the call trace. -/
theorem addNewClaim_calls (p : Nat) (st : P1State) (j : Json) :
    (addNewClaim p st j).calls = st.calls := by
  unfold addNewClaim
  dsimp only
  repeat' split
  all_goals rfl

/-- Registering a `new_claims` entry either drops it (state unchanged) or
appends exactly one fresh `OPEN` claim carrying the current counter as id
and the current page, and advances the counter by one. -/
theorem addNewClaim_claims (p : Nat) (st : P1State) (j : Json) :
    (addNewClaim p st j = st) ∨
    ∃ t ctx, (addNewClaim p st j).claims =
        st.claims ++ [⟨st.counter, t, ctx, p, "OPEN", none⟩] ∧
      (addNewClaim p st j).counter = st.counter + 1 := by
  unfold addNewClaim
  dsimp only
  repeat' split
  all_goals first
  | (left; rfl)
  | (right; exact ⟨_, _, rfl, rfl⟩)

/-- Folding claim registration over a response's `new_claims` list keeps
the findings list. -/
theorem foldlAdd_findings (p : Nat) :
    ∀ (items : List Json) (st : P1State),
      ((items.foldl (addNewClaim p) st).findings = st.findings) := by
  intro items
  induction items with
  | nil => intro st; rfl
  | cons j rest ih =>
    intro st
    rw [List.foldl_cons, ih, addNewClaim_findings]

/-- Folding claim registration keeps the failed-pages list. -/
theorem foldlAdd_failed (p : Nat) :
    ∀ (items : List Json) (st : P1State),
      ((items.foldl (addNewClaim p) st).failed = st.failed) := by
  intro items
  induction items with
  | nil => intro st; rfl
  | cons j rest ih =>
    intro st
    rw [List.foldl_cons, ih, addNewClaim_failed]

/-- Folding claim registration keeps the call trace. -/
theorem foldlAdd_calls (p : Nat) :
    ∀ (items : List Json) (st : P1State),
      ((items.foldl (addNewClaim p) st).calls = st.calls) := by
  intro items
  induction items with
  | nil => intro st; rfl
  | cons j rest ih =>
    intro st
    rw [List.foldl_cons, ih, addNewClaim_calls]

/-- A claim update never changes an entry's id. -/
theorem applyUpdate1_id (p : Nat) (u : ClaimUpdate) (c : Claim) :
    (applyUpdate1 p u c).id = c.id := by
  unfold applyUpdate1
  split <;> rfl

/-- A claim update never changes an entry's origin page. -/
theorem applyUpdate1_page (p : Nat) (u : ClaimUpdate) (c : Claim) :
    (applyUpdate1 p u c).page = c.page := by
  unfold applyUpdate1
  split <;> rfl

/-- Applying a claim update to the registry keeps the id sequence. -/
theorem applyUpdate_map_id (p : Nat) (claims : List Claim) (u : ClaimUpdate) :
    (applyUpdate p claims u).map (·.id) = claims.map (·.id) := by
  unfold applyUpdate
  split
  · rw [List.map_map]
    exact List.map_congr_left (fun c _ => applyUpdate1_id p u c)
  · rfl

/-- Applying a claim update keeps the page sequence. -/
theorem applyUpdate_map_page (p : Nat) (claims : List Claim) (u : ClaimUpdate) :
    (applyUpdate p claims u).map (·.page) = claims.map (·.page) := by
  unfold applyUpdate
  split
  · rw [List.map_map]
    exact List.map_congr_left (fun c _ => applyUpdate1_page p u c)
  · rfl

/-- Folding the update list over the registry keeps the id sequence. -/
theorem foldlUpd_map_id (p : Nat) :
    ∀ (us : List ClaimUpdate) (claims : List Claim),
      ((us.foldl (applyUpdate p) claims).map (·.id) = claims.map (·.id)) := by
  intro us
  induction us with
  | nil => intro claims; rfl
  | cons u rest ih =>
    intro claims
    rw [List.foldl_cons, ih, applyUpdate_map_id]

/-- Folding the update list keeps the page sequence. -/
theorem foldlUpd_map_page (p : Nat) :
    ∀ (us : List ClaimUpdate) (claims : List Claim),
      ((us.foldl (applyUpdate p) claims).map (·.page) = claims.map (·.page)) := by
  intro us
  induction us with
  | nil => intro claims; rfl
  | cons u rest ih =>
    intro claims
    rw [List.foldl_cons, ih, applyUpdate_map_page]

/-- Processing an oracle response keeps the failed-pages list. -/
theorem processResponse_failed (p : Nat) (st : P1State) (r : AnalyzeResponse) :
    (processResponse p st r).failed = st.failed := by
  unfold processResponse
  rw [foldlAdd_failed]

/-- Processing an oracle response keeps the call trace. -/
theorem processResponse_calls (p : Nat) (st : P1State) (r : AnalyzeResponse) :
    (processResponse p st r).calls = st.calls := by
  unfold processResponse
  rw [foldlAdd_calls]

/-- Processing an oracle response appends exactly its page-stamped
findings. -/
theorem processResponse_findings (p : Nat) (st : P1State) (r : AnalyzeResponse) :
    (processResponse p st r).findings =
      st.findings ++ r.findings.map (attributeFinding p) := by
  unfold processResponse
  rw [foldlAdd_findings]

/-- The id-sequence invariant Pass 1 maintains: the registry's ids are
`1, 2, …, n` in order and the counter holds the next free id. -/
def IdsOk (st : P1State) : Prop :=
  st.claims.map (·.id) = List.range' 1 st.claims.length ∧
  st.counter = st.claims.length + 1

/-- Registering one `new_claims` entry preserves the id-sequence
invariant: a dropped entry leaves the state alone, an accepted entry
takes the counter as id. -/
theorem addNewClaim_idsOk (p : Nat) (st : P1State) (j : Json)
    (h : IdsOk st) : IdsOk (addNewClaim p st j) := by
  rcases addNewClaim_claims p st j with heq | ⟨t, ctx, hcl, hctr⟩
  · rw [heq]; exact h
  · constructor
    · rw [hcl, List.map_append, List.length_append, h.1, h.2]
      simp only [List.map_cons, List.map_nil, List.length_cons, List.length_nil]
      rw [List.range'_1_concat]
      simp [Nat.add_comm]
    · rw [hctr, hcl, List.length_append, h.2]
      simp

/-- Folding claim registration preserves the id-sequence invariant. -/
theorem foldlAdd_idsOk (p : Nat) :
    ∀ (items : List Json) (st : P1State),
      IdsOk st → IdsOk (items.foldl (addNewClaim p) st) := by
  intro items
  induction items with
  | nil => intro st h; exact h
  | cons j rest ih =>
    intro st h
    rw [List.foldl_cons]
    exact ih _ (addNewClaim_idsOk p st j h)

/-- Processing a whole oracle response preserves the id-sequence
invariant: registration appends counter-numbered entries and updates
never renumber. -/
theorem processResponse_idsOk (p : Nat) (st : P1State) (r : AnalyzeResponse)
    (h : IdsOk st) : IdsOk (processResponse p st r) := by
  unfold processResponse
  have h2 : IdsOk (r.new_claims.foldl (addNewClaim p)
      { st with findings := st.findings ++ r.findings.map (attributeFinding p) }) :=
    foldlAdd_idsOk p r.new_claims _ ⟨h.1, h.2⟩
  have hlen : (r.claim_updates.foldl (applyUpdate p)
      (r.new_claims.foldl (addNewClaim p)
        { st with findings := st.findings ++ r.findings.map (attributeFinding p) }).claims).length =
      (r.new_claims.foldl (addNewClaim p)
        { st with findings := st.findings ++ r.findings.map (attributeFinding p) }).claims.length := by
    have := foldlUpd_map_id p r.claim_updates
      (r.new_claims.foldl (addNewClaim p)
        { st with findings := st.findings ++ r.findings.map (attributeFinding p) }).claims
    calc _ = ((r.claim_updates.foldl (applyUpdate p) _).map (·.id)).length := by
              rw [List.length_map]
      _ = _ := by rw [this, List.length_map]
  exact ⟨by rw [foldlUpd_map_id, hlen, h2.1], by rw [hlen]; exact h2.2⟩

/-- One Pass-1 step appends the failed page exactly when the oracle call
fails. -/
theorem pass1Step_failed (o : P1Oracle) (chunks : List Chunk) (i : Nat)
    (c : Chunk) (st : P1State) :
    (pass1Step o chunks i c st).failed =
      st.failed ++ (match o i with | none => [c.page] | some _ => []) := by
  unfold pass1Step
  cases ho : o i with
  | none => simp [ho]
  | some r => simp [ho, processResponse_failed]

/-- One Pass-1 step records exactly one oracle call, carrying the
chunk's page, its text and the two context windows of lines 93-94. -/
theorem pass1Step_calls (o : P1Oracle) (chunks : List Chunk) (i : Nat)
    (c : Chunk) (st : P1State) :
    (pass1Step o chunks i c st).calls =
      st.calls ++ [⟨c.page, prevCtx chunks i, c.text, nextCtx chunks i⟩] := by
  unfold pass1Step
  cases ho : o i with
  | none => simp [ho]
  | some r => simp [ho, processResponse_calls]

/-- One Pass-1 step appends exactly the page-stamped findings of a
successful call, nothing on failure. -/
theorem pass1Step_findings (o : P1Oracle) (chunks : List Chunk) (i : Nat)
    (c : Chunk) (st : P1State) :
    (pass1Step o chunks i c st).findings =
      st.findings ++ (match o i with
        | some r => r.findings.map (attributeFinding c.page)
        | none => []) := by
  unfold pass1Step
  cases ho : o i with
  | none => simp [ho]
  | some r => simp [ho, processResponse_findings]

/-- One Pass-1 step preserves the id-sequence invariant. -/
theorem pass1Step_idsOk (o : P1Oracle) (chunks : List Chunk) (i : Nat)
    (c : Chunk) (st : P1State) (h : IdsOk st) :
    IdsOk (pass1Step o chunks i c st) := by
  unfold pass1Step
  cases ho : o i with
  | none => simpa [ho] using h
  | some r =>
    simp only [ho]
    exact processResponse_idsOk c.page _ r ⟨h.1, h.2⟩

/-- The Pass-1 loop accumulates exactly the failed pages of `failedOf`. -/
theorem pass1Go_failed (o : P1Oracle) (chunks : List Chunk) :
    ∀ (l : List Chunk) (i : Nat) (st : P1State),
      (pass1Go o chunks l i st).failed = st.failed ++ failedOf o l i := by
  intro l
  induction l with
  | nil => intro i st; simp [pass1Go, failedOf]
  | cons c rest ih =>
    intro i st
    rw [pass1Go, ih, pass1Step_failed]
    rw [failedOf, List.append_assoc]

/-- The Pass-1 loop records exactly the calls of `callsOf`. -/
theorem pass1Go_calls (o : P1Oracle) (chunks : List Chunk) :
    ∀ (l : List Chunk) (i : Nat) (st : P1State),
      (pass1Go o chunks l i st).calls = st.calls ++ callsOf chunks l i := by
  intro l
  induction l with
  | nil => intro i st; simp [pass1Go, callsOf]
  | cons c rest ih =>
    intro i st
    rw [pass1Go, ih, pass1Step_calls]
    rw [callsOf, List.append_assoc]
    rfl

/-- The Pass-1 loop gathers exactly the findings of `findingsOf`. -/
theorem pass1Go_findings (o : P1Oracle) (chunks : List Chunk) :
    ∀ (l : List Chunk) (i : Nat) (st : P1State),
      (pass1Go o chunks l i st).findings = st.findings ++ findingsOf o l i := by
  intro l
  induction l with
  | nil => intro i st; simp [pass1Go, findingsOf]
  | cons c rest ih =>
    intro i st
    rw [pass1Go, ih, pass1Step_findings]
    rw [findingsOf, List.append_assoc]

/-- The Pass-1 loop preserves the id-sequence invariant. -/
theorem pass1Go_idsOk (o : P1Oracle) (chunks : List Chunk) :
    ∀ (l : List Chunk) (i : Nat) (st : P1State),
      IdsOk st → IdsOk (pass1Go o chunks l i st) := by
  intro l
  induction l with
  | nil => intro i st h; exact h
  | cons c rest ih =>
    intro i st h
    rw [pass1Go]
    exact ih _ _ (pass1Step_idsOk o chunks i c st h)

/-- Registering one `new_claims` entry adds at most a claim whose page is
the page being analyzed. -/
theorem addNewClaim_pages (p : Nat) (st : P1State) (j : Json) :
    ∀ pg ∈ (addNewClaim p st j).claims.map (·.page),
      pg ∈ st.claims.map (·.page) ∨ pg = p := by
  intro pg hpg
  rcases addNewClaim_claims p st j with heq | ⟨t, ctx, hcl, -⟩
  · rw [heq] at hpg
    exact Or.inl hpg
  · rw [hcl, List.map_append] at hpg
    rcases List.mem_append.mp hpg with h | h
    · exact Or.inl h
    · simp at h
      exact Or.inr h

/-- Folding claim registration adds only claims of the page being
analyzed. -/
theorem foldlAdd_pages (p : Nat) :
    ∀ (items : List Json) (st : P1State),
      ∀ pg ∈ ((items.foldl (addNewClaim p) st).claims.map (·.page)),
        pg ∈ st.claims.map (·.page) ∨ pg = p := by
  intro items
  induction items with
  | nil => intro st pg hpg; exact Or.inl hpg
  | cons j rest ih =>
    intro st pg hpg
    rw [List.foldl_cons] at hpg
    rcases ih _ pg hpg with h | h
    · exact addNewClaim_pages p st j pg h
    · exact Or.inr h

/-- Processing one oracle response adds only claims of the analyzed
page and repages no existing claim. -/
theorem processResponse_pages (p : Nat) (st : P1State) (r : AnalyzeResponse) :
    ∀ pg ∈ (processResponse p st r).claims.map (·.page),
      pg ∈ st.claims.map (·.page) ∨ pg = p := by
  intro pg hpg
  unfold processResponse at hpg
  rw [foldlUpd_map_page] at hpg
  have h := foldlAdd_pages p r.new_claims
    { st with findings := st.findings ++ r.findings.map (attributeFinding p) } pg hpg
  exact h

/-- One Pass-1 step adds only claims of the current chunk's page, and
only when the oracle call succeeds. -/
theorem pass1Step_pages (o : P1Oracle) (chunks : List Chunk) (i : Nat)
    (c : Chunk) (st : P1State) :
    ∀ pg ∈ (pass1Step o chunks i c st).claims.map (·.page),
      pg ∈ st.claims.map (·.page) ∨ ((o i).isSome ∧ pg = c.page) := by
  intro pg hpg
  unfold pass1Step at hpg
  cases ho : o i with
  | none =>
    rw [ho] at hpg
    exact Or.inl hpg
  | some r =>
    rw [ho] at hpg
    rcases processResponse_pages c.page
        { st with calls := st.calls ++
            [⟨c.page, prevCtx chunks i, c.text, nextCtx chunks i⟩] } r pg hpg with h | h
    · exact Or.inl h
    · exact Or.inr ⟨rfl, h⟩

/-- Every claim page produced by the Pass-1 loop is either inherited
from the incoming state or the page of a chunk whose oracle call
succeeded. -/
theorem pass1Go_pages (o : P1Oracle) (chunks : List Chunk) :
    ∀ (l : List Chunk) (i : Nat) (st : P1State),
      ∀ pg ∈ ((pass1Go o chunks l i st).claims.map (·.page)),
        pg ∈ st.claims.map (·.page) ∨
        ∃ j, j < l.length ∧ (o (i + j)).isSome ∧ pg = (l.getD j ⟨"", 0⟩).page := by
  intro l
  induction l with
  | nil => intro i st pg hpg; exact Or.inl hpg
  | cons c rest ih =>
    intro i st pg hpg
    rw [pass1Go] at hpg
    rcases ih (i + 1) _ pg hpg with h | ⟨j, hj, hs, hpge⟩
    · rcases pass1Step_pages o chunks i c st pg h with h | ⟨hs, hpge⟩
      · exact Or.inl h
      · exact Or.inr ⟨0, by simp, by simpa using hs, by simpa using hpge⟩
    · refine Or.inr ⟨j + 1, by simpa using hj, ?_, ?_⟩
      · have : i + 1 + j = i + (j + 1) := by omega
        rw [← this]
        exact hs
      · simpa using hpge

/-- Every finding of `findingsOf` is stamped with the page of a chunk
whose oracle call succeeded. -/
theorem findingsOf_pages (o : P1Oracle) :
    ∀ (l : List Chunk) (i : Nat),
      ∀ f ∈ findingsOf o l i,
        ∃ j, j < l.length ∧ (o (i + j)).isSome ∧ f.page = (l.getD j ⟨"", 0⟩).page := by
  intro l
  induction l with
  | nil => intro i f hf; simp [findingsOf] at hf
  | cons c rest ih =>
    intro i f hf
    rw [findingsOf] at hf
    rcases List.mem_append.mp hf with h | h
    · cases ho : o i with
      | none => rw [ho] at h; simp at h
      | some r =>
        rw [ho] at h
        rcases List.mem_map.mp h with ⟨g, -, hg⟩
        refine ⟨0, by simp, by simp [ho], ?_⟩
        rw [← hg]
        rfl
    · rcases ih (i + 1) f h with ⟨j, hj, hs, hpge⟩
      refine ⟨j + 1, by simpa using hj, ?_, by simpa using hpge⟩
      have : i + 1 + j = i + (j + 1) := by omega
      rw [← this]
      exact hs

/-- Every page of `failedOf` is the page of a chunk whose oracle call
failed. -/
theorem failedOf_subset (o : P1Oracle) :
    ∀ (l : List Chunk) (i : Nat),
      ∀ p ∈ failedOf o l i,
        ∃ j, j < l.length ∧ (o (i + j)).isNone ∧ p = (l.getD j ⟨"", 0⟩).page := by
  intro l
  induction l with
  | nil => intro i p hp; simp [failedOf] at hp
  | cons c rest ih =>
    intro i p hp
    rw [failedOf] at hp
    rcases List.mem_append.mp hp with h | h
    · cases ho : o i with
      | some r => rw [ho] at h; simp at h
      | none =>
        rw [ho] at h
        simp at h
        exact ⟨0, by simp, by simp [ho], by simpa using h⟩
    · rcases ih (i + 1) p h with ⟨j, hj, hs, hpge⟩
      refine ⟨j + 1, by simpa using hj, ?_, by simpa using hpge⟩
      have : i + 1 + j = i + (j + 1) := by omega
      rw [← this]
      exact hs

/-- Conversely, the page of every chunk whose oracle call failed appears
in `failedOf`. -/
theorem failedOf_complete (o : P1Oracle) :
    ∀ (l : List Chunk) (i : Nat) (j : Nat), j < l.length → (o (i + j)).isNone →
      (l.getD j ⟨"", 0⟩).page ∈ failedOf o l i := by
  intro l
  induction l with
  | nil => intro i j hj; simp at hj
  | cons c rest ih =>
    intro i j hj hnone
    rw [failedOf]
    cases j with
    | zero =>
      rw [Nat.add_zero] at hnone
      cases ho : o i with
      | some r => rw [ho] at hnone; simp at hnone
      | none => simp [ho]
    | succ j' =>
      apply List.mem_append_right
      have : i + (j' + 1) = (i + 1) + j' := by omega
      rw [this] at hnone
      simpa using ih (i + 1) j' (by simpa using hj) hnone

/-- Position `j` of `callsOf` carries the `j`-th listed chunk's page and
text together with the context windows computed at its absolute
position. -/
theorem callsOf_getD (chunks : List Chunk) :
    ∀ (l : List Chunk) (i : Nat) (j : Nat), j < l.length →
      (callsOf chunks l i).getD j ⟨0, "", "", ""⟩ =
        ⟨(l.getD j ⟨"", 0⟩).page, prevCtx chunks (i + j),
         (l.getD j ⟨"", 0⟩).text, nextCtx chunks (i + j)⟩ := by
  intro l
  induction l with
  | nil => intro i j hj; simp at hj
  | cons c rest ih =>
    intro i j hj
    cases j with
    | zero => rfl
    | succ j' =>
      rw [callsOf]
      have h1 : ((⟨c.page, prevCtx chunks i, c.text, nextCtx chunks i⟩ : P1Call) ::
          callsOf chunks rest (i + 1)).getD (j' + 1) ⟨0, "", "", ""⟩ =
          (callsOf chunks rest (i + 1)).getD j' ⟨0, "", "", ""⟩ := rfl
      rw [h1, ih (i + 1) j' (by simpa using hj)]
      have : i + 1 + j' = i + (j' + 1) := by omega
      rw [this]
      rfl

/-- Single chunk for the C5 boundary run. -/
def c5Chunks : List Chunk := [⟨"Seitentext", 1⟩]

/-- Oracle returning one invalid new-claim entry (empty text, listed
first) and one valid entry: only the valid one may take an id. -/
def c5Oracle : P1Oracle := fun _ =>
  some ⟨[],
        [Json.obj [("claim", Json.str "")],
         Json.obj [("claim", Json.str "Echtes Ziel"), ("context", Json.str "K")]],
        []⟩

/-- C5: over any Pass-1 run the registry's ids are exactly
`1, 2, …, n` in order of first appearance — consecutive from 1, never
reused or renumbered — and the counter always holds the next free id,
so a dropped entry does not advance it; in the concrete run whose
response carries one invalid and one valid new-claim entry, the single
registered claim has id 1, not 2. -/
theorem C5_claim_id_monotonicity (o : P1Oracle) (chunks : List Chunk) :
    (pass1Run o chunks).claims.map (·.id) =
      List.range' 1 (pass1Run o chunks).claims.length ∧
    (pass1Run o chunks).counter = (pass1Run o chunks).claims.length + 1 ∧
    (pass1Run c5Oracle c5Chunks).claims =
      [⟨1, "Echtes Ziel", Json.str "K", 1, "OPEN", none⟩] := by
  have h := pass1Go_idsOk o chunks chunks 0 initState ⟨rfl, rfl⟩
  exact ⟨h.1, h.2, rfl⟩

/-- The registration condition of lines 108-116, as a predicate on one
`new_claims` entry: a dict entry passes when its `claim` value is a
string that is non-empty and non-empty after stripping, any other entry
when its `str()` coercion is.  `addNewClaim` appends a claim exactly for
passing entries. -/
def validEntry : Json → Bool
  | Json.obj kvs =>
    (match jget kvs "claim" with
     | some (Json.str s) => s != "" && pyStrip s != ""
     | _ => false)
  | j => pyStr j != "" && pyStrip (pyStr j) != ""

/-- The page sequence of the registry a Pass-1 run over the chunks
listed from position `i` onward builds: for each chunk whose oracle call
succeeds, the chunk's own page repeated once per accepted `new_claims`
entry of that call — context pages never enter. -/
def claimPagesOf (o : P1Oracle) : List Chunk → Nat → List Nat
  | [], _ => []
  | c :: rest, i =>
    (match o i with
     | some r => List.replicate (r.new_claims.countP validEntry) c.page
     | none => []) ++ claimPagesOf o rest (i + 1)

/-- Registering one `new_claims` entry appends the analyzed page to the
registry's page sequence exactly when the entry passes `validEntry`. -/
theorem addNewClaim_map_page (p : Nat) (st : P1State) (j : Json) :
    (addNewClaim p st j).claims.map (·.page) =
      st.claims.map (·.page) ++ (if validEntry j then [p] else []) := by
  unfold addNewClaim validEntry
  cases j with
  | obj kvs =>
    cases hg : jget kvs "claim" with
    | none => simp [hg]
    | some v =>
      cases v with
      | str s =>
        simp only [hg]
        split <;> rename_i h <;> simp [h]
      | null => simp [hg]
      | bool b => simp [hg]
      | num n => simp [hg]
      | arr xs => simp [hg]
      | obj kvs2 => simp [hg]
  | null => dsimp only; split <;> rename_i h <;> simp [h]
  | bool b => dsimp only; split <;> rename_i h <;> simp [h]
  | num n => dsimp only; split <;> rename_i h <;> simp [h]
  | str s => dsimp only; split <;> rename_i h <;> simp [h]
  | arr xs => dsimp only; split <;> rename_i h <;> simp [h]

/-- Folding claim registration over a response's `new_claims` list
appends the analyzed page once per accepted entry. -/
theorem foldlAdd_map_page (p : Nat) :
    ∀ (items : List Json) (st : P1State),
      ((items.foldl (addNewClaim p) st).claims.map (·.page) =
        st.claims.map (·.page) ++ List.replicate (items.countP validEntry) p) := by
  intro items
  induction items with
  | nil => intro st; simp
  | cons j rest ih =>
    intro st
    rw [List.foldl_cons, ih, addNewClaim_map_page, List.countP_cons]
    by_cases hv : validEntry j = true
    · simp [hv, List.append_assoc, List.replicate_succ]
    · simp [hv]

/-- Processing one oracle response appends the analyzed page once per
accepted `new_claims` entry; updates repage nothing. -/
theorem processResponse_map_page (p : Nat) (st : P1State) (r : AnalyzeResponse) :
    (processResponse p st r).claims.map (·.page) =
      st.claims.map (·.page) ++ List.replicate (r.new_claims.countP validEntry) p := by
  unfold processResponse
  rw [foldlUpd_map_page, foldlAdd_map_page]

/-- One Pass-1 step appends the current chunk's page once per accepted
entry of a successful call, nothing on failure. -/
theorem pass1Step_map_page (o : P1Oracle) (chunks : List Chunk) (i : Nat)
    (c : Chunk) (st : P1State) :
    (pass1Step o chunks i c st).claims.map (·.page) =
      st.claims.map (·.page) ++ (match o i with
        | some r => List.replicate (r.new_claims.countP validEntry) c.page
        | none => []) := by
  unfold pass1Step
  cases ho : o i with
  | none => simp [ho]
  | some r => simp [ho, processResponse_map_page]

/-- The Pass-1 loop builds exactly the page sequence of `claimPagesOf`:
claims appear in registry order, grouped call by call, each carrying the
analyzed chunk's own page. -/
theorem pass1Go_map_page (o : P1Oracle) (chunks : List Chunk) :
    ∀ (l : List Chunk) (i : Nat) (st : P1State),
      (pass1Go o chunks l i st).claims.map (·.page) =
        st.claims.map (·.page) ++ claimPagesOf o l i := by
  intro l
  induction l with
  | nil => intro i st; simp [pass1Go, claimPagesOf]
  | cons c rest ih =>
    intro i st
    rw [pass1Go, ih, pass1Step_map_page]
    rw [claimPagesOf, List.append_assoc]

/-- Three-page document used by several concrete runs. -/
def c7Chunks : List Chunk := [⟨"A", 1⟩, ⟨"B", 2⟩, ⟨"C", 3⟩]

/-- Oracle returning one finding per page, deliberately carrying a bogus
`page` value that Pass 1 must overwrite. -/
def c7Oracle : P1Oracle := fun _ =>
  some ⟨[⟨"VAGUE", "grün", "unspezifisch", Json.num 99⟩], [], []⟩

/-- Oracle whose second call (position 1) returns one new claim and the
other calls return nothing: the claim must be attributed to page 2, the
analyzed chunk, although pages 1 and 3 also sit in its context windows. -/
def c7bOracle : P1Oracle := fun i =>
  some ⟨[],
        if i = 1 then
          [Json.obj [("claim", Json.str "Ziel aus Seite zwei"),
                     ("context", Json.str "B")]]
        else [],
        []⟩

/-- C7: the Pass-1 call trace has exactly one call per chunk, whose
context windows are the full text of the previous chunk (empty for the
first) and of the next chunk (empty for the last), the current chunk's
own text in the middle; the page stamped on a finding is the current
chunk's page no matter what the oracle returned
(`findings = findingsOf`), and the registry's page sequence is exactly
`claimPagesOf`: each call's accepted claims carry that call's own
chunk's page, so no claim is ever attributed to a context page. -/
theorem C7_context_windows_and_attribution (o : P1Oracle) (chunks : List Chunk) :
    (pass1Run o chunks).calls = callsOf chunks chunks 0 ∧
    (∀ i, i < chunks.length →
      (pass1Run o chunks).calls.getD i ⟨0, "", "", ""⟩ =
        ⟨(chunks.getD i ⟨"", 0⟩).page, prevCtx chunks i,
         (chunks.getD i ⟨"", 0⟩).text, nextCtx chunks i⟩) ∧
    (∀ (p : Nat) (f : OracleFinding), (attributeFinding p f).page = p) ∧
    (pass1Run o chunks).findings = findingsOf o chunks 0 ∧
    (∀ f ∈ (pass1Run o chunks).findings,
      ∃ j, j < chunks.length ∧ (o j).isSome ∧ f.page = (chunks.getD j ⟨"", 0⟩).page) ∧
    (pass1Run o chunks).claims.map (·.page) = claimPagesOf o chunks 0 ∧
    (∀ c ∈ (pass1Run o chunks).claims,
      ∃ j, j < chunks.length ∧ (o j).isSome ∧ c.page = (chunks.getD j ⟨"", 0⟩).page) := by
  have hcalls : (pass1Run o chunks).calls = callsOf chunks chunks 0 := by
    unfold pass1Run
    rw [pass1Go_calls]
    rfl
  have hfind : (pass1Run o chunks).findings = findingsOf o chunks 0 := by
    unfold pass1Run
    rw [pass1Go_findings]
    rfl
  have hcp : (pass1Run o chunks).claims.map (·.page) = claimPagesOf o chunks 0 := by
    unfold pass1Run
    rw [pass1Go_map_page]
    rfl
  refine ⟨hcalls, ?_, fun p f => rfl, hfind, ?_, hcp, ?_⟩
  · intro i hi
    rw [hcalls, callsOf_getD chunks chunks 0 i hi, Nat.zero_add]
  · intro f hf
    rw [hfind] at hf
    rcases findingsOf_pages o chunks 0 f hf with ⟨j, hj, hs, hp⟩
    exact ⟨j, hj, by simpa using hs, hp⟩
  · intro c hc
    rcases pass1Go_pages o chunks chunks 0 initState c.page
        (List.mem_map_of_mem _ hc) with h | ⟨j, hj, hs, hp⟩
    · simp [initState] at h
    · exact ⟨j, hj, by simpa using hs, hp⟩

/-- C7 witness: in the three-page run the second call's context windows
are exactly the first and third pages' full texts with the second
chunk's own text and page in the middle; and in the `c7bOracle` run,
whose only claim comes from the call analyzing page 2 with pages 1 and 3
as context, the registry's page sequence is `[2]` — the analyzed page,
not a context page. -/
theorem C7_witness :
    1 < c7Chunks.length ∧
    (pass1Run c7Oracle c7Chunks).calls.getD 1 ⟨0, "", "", ""⟩ =
      ⟨2, "A", "B", "C"⟩ ∧
    (pass1Run c7bOracle c7Chunks).claims.map (·.page) = [2] := by
  have h := (C7_context_windows_and_attribution c7Oracle c7Chunks).2.1 1 (by decide)
  have h2 := (C7_context_windows_and_attribution c7bOracle c7Chunks).2.2.2.2.2.1
  exact ⟨by decide, h.trans rfl, h2.trans rfl⟩

/-- Oracle failing on the second page only (position 1), succeeding with
one finding elsewhere. -/
def c3Oracle : P1Oracle := fun i =>
  if i = 1 then none
  else some ⟨[⟨"VAGUE", "grün", "unspezifisch", Json.null⟩], [], []⟩

/-- C3: Pass 1 never propagates a per-page oracle failure — the model is
total, and the returned value records the failure instead: the run's
failed-pages list is exactly the pages (in document order) whose call
returned `None`, the result then carries the partial findings and claims
together with the error summary naming those pages, and every finding
and claim stems from a successfully analyzed page. -/
theorem C3_per_page_failure_resilience (m : String) (o : P1Oracle)
    (chunks : List Chunk) :
    (pass1Run o chunks).failed = failedOf o chunks 0 ∧
    (failedOf o chunks 0 ≠ [] →
      analyze_report true m o chunks =
        ⟨some (pass1Run o chunks).findings, some (pass1Run o chunks).claims,
         none, none,
         some ("API-Fehler auf Seiten: " ++ joinPages (failedOf o chunks 0))⟩) ∧
    (∀ p ∈ failedOf o chunks 0,
      ∃ j, j < chunks.length ∧ (o j).isNone ∧ p = (chunks.getD j ⟨"", 0⟩).page) ∧
    (∀ j, j < chunks.length → (o j).isNone →
      (chunks.getD j ⟨"", 0⟩).page ∈ failedOf o chunks 0) ∧
    (pass1Run o chunks).findings = findingsOf o chunks 0 ∧
    (∀ f ∈ (pass1Run o chunks).findings,
      ∃ j, j < chunks.length ∧ (o j).isSome ∧ f.page = (chunks.getD j ⟨"", 0⟩).page) ∧
    (∀ c ∈ (pass1Run o chunks).claims,
      ∃ j, j < chunks.length ∧ (o j).isSome ∧ c.page = (chunks.getD j ⟨"", 0⟩).page) := by
  have hfailed : (pass1Run o chunks).failed = failedOf o chunks 0 := by
    unfold pass1Run
    rw [pass1Go_failed]
    rfl
  have hfind : (pass1Run o chunks).findings = findingsOf o chunks 0 := by
    unfold pass1Run
    rw [pass1Go_findings]
    rfl
  refine ⟨hfailed, ?_, ?_, ?_, hfind, ?_, ?_⟩
  · intro hne
    have hne' : (pass1Run o chunks).failed.isEmpty = false := by
      cases hc : failedOf o chunks 0 with
      | nil => exact absurd hc hne
      | cons a l => rw [hfailed, hc]; rfl
    simp [analyze_report, hne', hfailed]
    exact hne
  · intro p hp
    rcases failedOf_subset o chunks 0 p hp with ⟨j, hj, hs, hpe⟩
    exact ⟨j, hj, by simpa using hs, hpe⟩
  · intro j hj hnone
    have := failedOf_complete o chunks 0 j hj (by simpa using hnone)
    exact this
  · intro f hf
    rw [hfind] at hf
    rcases findingsOf_pages o chunks 0 f hf with ⟨j, hj, hs, hp⟩
    exact ⟨j, hj, by simpa using hs, hp⟩
  · intro c hc
    rcases pass1Go_pages o chunks chunks 0 initState c.page
        (List.mem_map_of_mem _ hc) with h | ⟨j, hj, hs, hp⟩
    · simp [initState] at h
    · exact ⟨j, hj, by simpa using hs, hp⟩

/-- C3 witness: the three-page run whose second call fails yields the
degraded result naming page 2 and keeping the other pages' findings. -/
theorem C3_witness :
    failedOf c3Oracle c7Chunks 0 ≠ [] ∧
    analyze_report true "gpt-4o-mini" c3Oracle c7Chunks =
      ⟨some (pass1Run c3Oracle c7Chunks).findings,
       some (pass1Run c3Oracle c7Chunks).claims, none, none,
       some ("API-Fehler auf Seiten: " ++ joinPages (failedOf c3Oracle c7Chunks 0))⟩ :=
  ⟨by decide,
   (C3_per_page_failure_resilience "gpt-4o-mini" c3Oracle c7Chunks).2.1 (by decide)⟩

/-- C10: the result dict of `analyze_report` carries the `error` key
exactly when the API was unavailable or at least one page failed; the
API-unavailable result holds only the error, the degraded result holds
exactly findings, registry and error, and only the fully successful
result holds `total_chunks` and `model_used`. -/
theorem C10_result_keys (api : Bool) (m : String) (o : P1Oracle)
    (chunks : List Chunk) :
    analyze_report false m o chunks = ⟨none, none, none, none, some "API Key fehlt."⟩ ∧
    ((pass1Run o chunks).failed ≠ [] →
      analyze_report true m o chunks =
        ⟨some (pass1Run o chunks).findings, some (pass1Run o chunks).claims,
         none, none,
         some ("API-Fehler auf Seiten: " ++ joinPages ((pass1Run o chunks).failed))⟩) ∧
    ((pass1Run o chunks).failed = [] →
      analyze_report true m o chunks =
        ⟨some (pass1Run o chunks).findings, some (pass1Run o chunks).claims,
         some chunks.length, some m, none⟩) ∧
    ((analyze_report api m o chunks).error.isSome = true ↔
      (api = false ∨ (pass1Run o chunks).failed ≠ [])) := by
  have hcase : ∀ st : List Nat, st ≠ [] → st.isEmpty = false := by
    intro st h
    cases st with
    | nil => exact absurd rfl h
    | cons a l => rfl
  refine ⟨rfl, ?_, ?_, ?_⟩
  · intro hne
    have hne' := hcase _ hne
    simp [analyze_report, hne']
  · intro hnil
    have : (pass1Run o chunks).failed.isEmpty = true := by rw [hnil]; rfl
    simp [analyze_report, this]
  · cases api with
    | false =>
      constructor
      · intro _; exact Or.inl rfl
      · intro _; rfl
    | true =>
      cases hf : (pass1Run o chunks).failed with
      | nil =>
        have : (pass1Run o chunks).failed.isEmpty = true := by rw [hf]; rfl
        simp [analyze_report, this, hf]
      | cons a l =>
        have : (pass1Run o chunks).failed.isEmpty = false := by rw [hf]; rfl
        simp [analyze_report, this, hf]

/-- C10 witness: a fully successful run carries `total_chunks` and
`model_used` and no `error`. -/
theorem C10_witness :
    (pass1Run c7Oracle c7Chunks).failed = [] ∧
    analyze_report true "gpt-4o-mini" c7Oracle c7Chunks =
      ⟨some (pass1Run c7Oracle c7Chunks).findings,
       some (pass1Run c7Oracle c7Chunks).claims,
       some c7Chunks.length, some "gpt-4o-mini", none⟩ :=
  ⟨by decide,
   (C10_result_keys true "gpt-4o-mini" c7Oracle c7Chunks).2.2.1 (by decide)⟩

end GW
